import Mathlib

/-!
Verification of the simple PDF extraction pipeline.

The pipeline splits a PDF into page chunks, sends each chunk to an external
model, rebases the returned chunk-local page indices to document-global ones,
merges the per-chunk results by a stable sort on the page index, and renders
the merged items as markdown text.  JSON objects with possibly-missing keys
are modelled with `Option` fields; a missing key is `none` and the code's
`dict.get(key, default)` becomes `Option.getD`.  Python's unbounded integers
become `Int` where negative values can occur (page indices as data, the
renderer's `current_page` sentinel `-1`) and `Nat` for page counts and sizes.
-/

namespace SimplePdf

/-- One extracted document element, a JSON object whose keys may be absent
(`none` models a missing key), as handled by the merge and render code. -/
structure ContentItem where
  type : Option String
  page_index : Option Int
  content : Option String
  is_incomplete : Option Bool
deriving DecidableEq

/-- The JSON result of one model call; the `data` key may be absent. -/
structure ExtractionResult where
  data : Option (List ContentItem)
deriving DecidableEq

/-- Loop of the splitter: Python `for i in range(i0, page_count, chunk_size)`
builds one chunk per iteration, covering pages `[i, min(i + chunk_size,
page_count))`.  The chunk's byte blob is abstracted as that page interval
`(start_page, end_page)`; the second component is exclusive, matching
`insert_pdf(doc, from_page=start_page, to_page=end_page - 1)` whose bounds
are inclusive.  A zero step is excluded, as Python `range` rejects it. -/
def split_pdf_loop (page_count chunk_size i : Nat) : List (Nat × Nat) :=
  if _h : i < page_count ∧ 0 < chunk_size then
    (i, min (i + chunk_size) page_count) :: split_pdf_loop page_count chunk_size (i + chunk_size)
  else []
termination_by page_count - i
decreasing_by omega

/-- The splitter `_split_pdf`, started at page 0. -/
def split_pdf (page_count chunk_size : Nat) : List (Nat × Nat) :=
  split_pdf_loop page_count chunk_size 0

/-- Failure value reaching the chunk processor: either an ordinary exception
carrying its message, or a tenacity `RetryError` raised after the retry
budget is exhausted, wrapping the final attempt's exception message
(the decorator leaves `reraise` at its default `False`). -/
inductive CallFailure where
  | exc (msg : String)
  | retryError (lastMsg : String)
deriving DecidableEq

/-- Backoff wait in seconds after the n-th failed attempt (n is 1-based), per
the tenacity library's `wait_exponential` with the arguments used in the
source, `multiplier=2, min=4, max=60`: the library computes
`multiplier * exp_base ** (attempt_number - 1)` and clamps the result to
`[min, max]`. -/
def retry_wait (n : Nat) : Nat :=
  max 4 (min (2 * 2 ^ (n - 1)) 60)

/-- Retry loop of the tenacity decorator on the model call, with
`stop_after_attempt(5)` and retry on any exception.  `outcomes n` is what the
undecorated body would do on its n-th attempt (return a parsed result, or
raise an exception with the given message).  Returns the final outcome
together with the list of backoff waits performed, in order.  A success
returns at once; a failure at attempt 5 raises `RetryError`; an earlier
failure waits `retry_wait n` and tries again. -/
def retry_loop (outcomes : Nat → Except String ExtractionResult) (n : Nat) :
    Except CallFailure ExtractionResult × List Nat :=
  match outcomes n with
  | Except.ok r => (Except.ok r, [])
  | Except.error e =>
    if h : 5 ≤ n then (Except.error (CallFailure.retryError e), [])
    else
      let rest := retry_loop outcomes (n + 1)
      (rest.1, retry_wait n :: rest.2)
termination_by 5 - n
decreasing_by omega

/-- The decorated model call `_call_gemini_api`: the retry loop started at
attempt 1. -/
def call_gemini_api (outcomes : Nat → Except String ExtractionResult) :
    Except CallFailure ExtractionResult × List Nat :=
  retry_loop outcomes 1

/-- Rebasing of one item in `_process_chunk`: `if "page_index" in item:
item["page_index"] += base_page_index`; an item without the key is left
unchanged. -/
def rebase_item (base_page_index : Int) (item : ContentItem) : ContentItem :=
  match item.page_index with
  | some p => { item with page_index := some (p + base_page_index) }
  | none => item

/-- Rebasing of a whole result in `_process_chunk`: `if "data" in
result_json:` rebase every item of `result_json["data"]`; a result without
the key is left unchanged. -/
def rebase_result (base_page_index : Int) (res : ExtractionResult) : ExtractionResult :=
  match res.data with
  | some items => { data := some (items.map (rebase_item base_page_index)) }
  | none => res

/-- The chunk processor `_process_chunk`, given the outcome of the (already
retried) model call: on success it rebases the page indices; on any failure
it catches the exception and returns `None` (the quota branch only logs and
sleeps before doing so). -/
def process_chunk (call : Except CallFailure ExtractionResult) (base_page_index : Int) :
    Option ExtractionResult :=
  match call with
  | Except.ok r => some (rebase_result base_page_index r)
  | Except.error _ => none

/-- Sort key of the merger: `lambda x: x.get("page_index", 0)`. -/
def pageKey (item : ContentItem) : Int :=
  item.page_index.getD 0

/-- Accumulation loop of `_merge_results`: results that are `None` or lack a
`data` key are skipped, the others' item lists are concatenated in order. -/
def concat_data : List (Option ExtractionResult) → List ContentItem
  | [] => []
  | none :: rest => concat_data rest
  | some r :: rest =>
    match r.data with
    | some items => items ++ concat_data rest
    | none => concat_data rest

/-- The merger `_merge_results`: concatenate all present chunks' items, then
`list.sort(key=...)`, a stable sort on `pageKey`, modelled by insertion sort
with the reflexive key order (which is stable). -/
def merge_results (results : List (Option ExtractionResult)) : ExtractionResult :=
  { data := some (List.insertionSort (fun a b => pageKey a ≤ pageKey b) (concat_data results)) }

/-- Running state of the renderer loop in `_json_to_text`. -/
structure RenderState where
  text_parts : List String
  current_page : Int
  prev_is_incomplete : Bool
  prev_content : String
deriving DecidableEq

/-- The page marker line `f"[page_index: {page_index}]"`. -/
def page_marker (page_index : Int) : String :=
  "[page_index: " ++ toString page_index ++ "]"

/-- One iteration of the renderer loop: stitch with the previous content if it
was incomplete and the current item is a paragraph (popping the previously
emitted block), emit a page marker when the page changes (preceded by an
empty separator entry unless nothing has been emitted), emit the block
(`## `-prefixed for `sub_title`, verbatim for `table` and anything else),
then carry the item's own flag and the possibly stitched content forward. -/
def render_step (st : RenderState) (item : ContentItem) : RenderState :=
  let item_type := item.type.getD "paragraph"
  let page_index := item.page_index.getD 0
  let content0 := item.content.getD ""
  let is_incomplete := item.is_incomplete.getD false
  let stitch := st.prev_is_incomplete && (item_type == "paragraph")
  let content := if stitch then st.prev_content ++ " " ++ content0 else content0
  let parts1 := if stitch && !st.text_parts.isEmpty then st.text_parts.dropLast else st.text_parts
  let parts2 :=
    if page_index ≠ st.current_page then
      (if parts1.isEmpty then parts1 else parts1 ++ [""]) ++ [page_marker page_index]
    else parts1
  let current := if page_index ≠ st.current_page then page_index else st.current_page
  let block :=
    if item_type == "sub_title" then "## " ++ content
    else if item_type == "table" then content
    else content
  { text_parts := parts2 ++ [block], current_page := current,
    prev_is_incomplete := is_incomplete, prev_content := content }

/-- Initial renderer state: no parts, `current_page = -1`, nothing pending. -/
def init_state : RenderState :=
  { text_parts := [], current_page := -1, prev_is_incomplete := false, prev_content := "" }

/-- The renderer `_json_to_text`: empty string when the input is falsy, lacks
a `data` key, or has an empty `data` list; otherwise the loop's text parts
joined by `"\n\n"`. -/
def json_to_text (json_data : Option ExtractionResult) : String :=
  match json_data with
  | none => ""
  | some r =>
    match r.data with
    | none => ""
    | some [] => ""
    | some items => String.intercalate "\n\n" (items.foldl render_step init_state).text_parts

/-- Number of renderer iterations that (re)emit a page marker, starting from
marker state `cur`: the count of positions whose (defaulted) `page_index`
differs from the previously emitted marker. -/
def page_changes (cur : Int) : List ContentItem → Nat
  | [] => 0
  | item :: rest =>
    let p := item.page_index.getD 0
    if p ≠ cur then 1 + page_changes p rest else page_changes cur rest

/-! ### Helper lemmas -/

lemma concat_data_cons_none (rest : List (Option ExtractionResult)) :
    concat_data (none :: rest) = concat_data rest := rfl

lemma concat_data_cons_some (r : ExtractionResult) (rest : List (Option ExtractionResult)) :
    concat_data (some r :: rest) = r.data.getD [] ++ concat_data rest := by
  obtain ⟨d⟩ := r
  cases d <;> simp [concat_data]

lemma retry_all_fail (outcomes : Nat → Except String ExtractionResult)
    (e1 e2 e3 e4 e5 : String)
    (h1 : outcomes 1 = Except.error e1) (h2 : outcomes 2 = Except.error e2)
    (h3 : outcomes 3 = Except.error e3) (h4 : outcomes 4 = Except.error e4)
    (h5 : outcomes 5 = Except.error e5) :
    call_gemini_api outcomes
      = (Except.error (CallFailure.retryError e5), [4, 4, 8, 16]) := by
  rw [call_gemini_api]
  rw [retry_loop, h1]
  rw [retry_loop, h2]
  rw [retry_loop, h3]
  rw [retry_loop, h4]
  rw [retry_loop, h5]
  norm_num [retry_wait]

lemma retry_loop_ok (o : Nat → Except String ExtractionResult) (n : Nat)
    (r : ExtractionResult) (h : o n = Except.ok r) :
    retry_loop o n = (Except.ok r, []) := by
  rw [retry_loop, h]

lemma retry_loop_err_stop (o : Nat → Except String ExtractionResult) (n : Nat)
    (e : String) (h : o n = Except.error e) (h5 : 5 ≤ n) :
    retry_loop o n = (Except.error (CallFailure.retryError e), []) := by
  rw [retry_loop, h]
  simp [h5]

lemma retry_loop_err_cont (o : Nat → Except String ExtractionResult) (n : Nat)
    (e : String) (h : o n = Except.error e) (h5 : ¬ 5 ≤ n) :
    retry_loop o n = ((retry_loop o (n + 1)).1, retry_wait n :: (retry_loop o (n + 1)).2) := by
  rw [retry_loop, h]
  simp [h5]

lemma retry_loop_congr (o o' : Nat → Except String ExtractionResult) :
    ∀ k n : Nat, n + k = 5 → (∀ m, n ≤ m → m ≤ 5 → o m = o' m) →
      retry_loop o n = retry_loop o' n := by
  intro k
  induction k with
  | zero =>
    intro n h5 hag
    have hn : n = 5 := by omega
    subst hn
    have ho' : o' 5 = o 5 := (hag 5 le_rfl le_rfl).symm
    cases ho : o 5 with
    | ok r => rw [retry_loop_ok o 5 r ho, retry_loop_ok o' 5 r (ho'.trans ho)]
    | error e =>
      rw [retry_loop_err_stop o 5 e ho (by omega),
        retry_loop_err_stop o' 5 e (ho'.trans ho) (by omega)]
  | succ k ih =>
    intro n h5 hag
    have ho' : o' n = o n := (hag n le_rfl (by omega)).symm
    cases ho : o n with
    | ok r => rw [retry_loop_ok o n r ho, retry_loop_ok o' n r (ho'.trans ho)]
    | error e =>
      rw [retry_loop_err_cont o n e ho (by omega),
        retry_loop_err_cont o' n e (ho'.trans ho) (by omega),
        ih (n + 1) (by omega) (fun m hm hm5 => hag m (by omega) hm5)]

instance : IsTotal ContentItem (fun a b => pageKey a ≤ pageKey b) :=
  ⟨fun a b => Int.le_total (pageKey a) (pageKey b)⟩

instance : IsTrans ContentItem (fun a b => pageKey a ≤ pageKey b) :=
  ⟨fun _ _ _ hab hbc => le_trans hab hbc⟩

lemma filter_orderedInsert (v : Int) (a : ContentItem) (s : List ContentItem) :
    (List.orderedInsert (fun x y => pageKey x ≤ pageKey y) a s).filter (fun x => pageKey x == v)
      = if pageKey a == v then a :: s.filter (fun x => pageKey x == v)
        else s.filter (fun x => pageKey x == v) := by
  induction s with
  | nil => simp [List.orderedInsert, List.filter_cons]
  | cons y ys ih =>
    rw [List.orderedInsert]
    by_cases hle : pageKey a ≤ pageKey y
    · rw [if_pos hle, List.filter_cons]
    · rw [if_neg hle, List.filter_cons, ih]
      have hlt : pageKey y < pageKey a := not_le.mp hle
      by_cases hav : pageKey a = v
      · have hyv : ¬ pageKey y = v := by omega
        simp [hav, hyv, List.filter_cons]
      · by_cases hyv : pageKey y = v <;> simp [hav, hyv, List.filter_cons]

lemma filter_insertionSort (v : Int) (l : List ContentItem) :
    (List.insertionSort (fun a b => pageKey a ≤ pageKey b) l).filter (fun x => pageKey x == v)
      = l.filter (fun x => pageKey x == v) := by
  induction l with
  | nil => rfl
  | cons a l ih => rw [List.insertionSort, filter_orderedInsert, List.filter_cons, ih]

lemma split_pdf_loop_pos (P C i : Nat) (hi : i < P) (hC : 0 < C) :
    split_pdf_loop P C i = (i, min (i + C) P) :: split_pdf_loop P C (i + C) := by
  rw [split_pdf_loop, dif_pos ⟨hi, hC⟩]

lemma split_pdf_loop_neg (P C i : Nat) (h : ¬(i < P ∧ 0 < C)) :
    split_pdf_loop P C i = [] := by
  rw [split_pdf_loop, dif_neg h]

lemma split_pdf_loop_mem_aux (P C : Nat) :
    ∀ d i, P - i ≤ d → ∀ r ∈ split_pdf_loop P C i, i ≤ r.1 ∧ r.1 < P ∧ r.2 = min (r.1 + C) P := by
  intro d
  induction d with
  | zero =>
    intro i hd r hr
    rw [split_pdf_loop_neg P C i (by omega)] at hr
    simp at hr
  | succ d ih =>
    intro i hd r hr
    by_cases hg : i < P ∧ 0 < C
    · rw [split_pdf_loop_pos P C i hg.1 hg.2] at hr
      rcases List.mem_cons.mp hr with rfl | hr'
      · exact ⟨le_rfl, hg.1, rfl⟩
      · have hm := ih (i + C) (by omega) r hr'
        exact ⟨by omega, hm.2.1, hm.2.2⟩
    · rw [split_pdf_loop_neg P C i hg] at hr
      simp at hr

lemma split_pdf_loop_mem (P C i : Nat) :
    ∀ r ∈ split_pdf_loop P C i, i ≤ r.1 ∧ r.1 < P ∧ r.2 = min (r.1 + C) P :=
  split_pdf_loop_mem_aux P C P i (Nat.sub_le P i)

lemma split_pdf_loop_get (P C : Nat) (hC : 0 < C) :
    ∀ k i : Nat, (split_pdf_loop P C i).get? k
      = if i + k * C < P then some (i + k * C, min (i + k * C + C) P) else none := by
  intro k
  induction k with
  | zero =>
    intro i
    by_cases hi : i < P
    · rw [split_pdf_loop_pos P C i hi hC]
      simp [hi]
    · rw [split_pdf_loop_neg P C i (fun hc => hi hc.1)]
      simp [hi]
  | succ k ih =>
    intro i
    by_cases hi : i < P
    · rw [split_pdf_loop_pos P C i hi hC, List.get?_cons_succ, ih (i + C)]
      have harith : i + C + k * C = i + (k + 1) * C := by ring
      rw [harith]
    · rw [split_pdf_loop_neg P C i (fun hc => hi hc.1), List.get?_nil,
        if_neg (fun hlt => hi (Nat.lt_of_le_of_lt (Nat.le_add_right i ((k + 1) * C)) hlt))]

lemma split_pdf_loop_countP_aux (P C p : Nat) :
    ∀ d i, P - i ≤ d → 0 < C → i ≤ p → p < P →
      (split_pdf_loop P C i).countP (fun r => decide (r.1 ≤ p ∧ p < r.2)) = 1 := by
  intro d
  induction d with
  | zero =>
    intro i hd hC hip hpP
    omega
  | succ d ih =>
    intro i hd hC hip hpP
    have hiP : i < P := by omega
    rw [split_pdf_loop_pos P C i hiP hC, List.countP_cons]
    by_cases hp : p < i + C
    · have hzero : (split_pdf_loop P C (i + C)).countP
          (fun r => decide (r.1 ≤ p ∧ p < r.2)) = 0 := by
        rw [List.countP_eq_zero]
        intro r hr
        have hm := split_pdf_loop_mem P C (i + C) r hr
        simp only [decide_eq_true_eq]
        omega
      rw [hzero, if_pos (by simp only [decide_eq_true_eq]; constructor <;> omega)]
    · rw [if_neg (by simp only [decide_eq_true_eq]; omega),
        ih (i + C) (by omega) hC (by omega) hpP]

lemma split_pdf_loop_countP (P C p i : Nat) (hC : 0 < C) (hip : i ≤ p) (hpP : p < P) :
    (split_pdf_loop P C i).countP (fun r => decide (r.1 ≤ p ∧ p < r.2)) = 1 :=
  split_pdf_loop_countP_aux P C p P i (Nat.sub_le P i) hC hip hpP

lemma split_pdf_loop_chain_aux (P C : Nat) :
    ∀ d i, P - i ≤ d → (split_pdf_loop P C i).Chain' (fun a b => a.2 ≤ b.1) := by
  intro d
  induction d with
  | zero =>
    intro i hd
    rw [split_pdf_loop_neg P C i (by omega)]
    exact List.chain'_nil
  | succ d ih =>
    intro i hd
    by_cases hg : i < P ∧ 0 < C
    · rw [split_pdf_loop_pos P C i hg.1 hg.2, List.chain'_cons']
      refine ⟨?_, ih (i + C) (by omega)⟩
      intro y hy
      have hm := split_pdf_loop_mem P C (i + C) y (List.mem_of_mem_head? hy)
      show min (i + C) P ≤ y.1
      omega
    · rw [split_pdf_loop_neg P C i hg]
      exact List.chain'_nil

lemma split_pdf_loop_chain (P C i : Nat) :
    (split_pdf_loop P C i).Chain' (fun a b => a.2 ≤ b.1) :=
  split_pdf_loop_chain_aux P C P i (Nat.sub_le P i)

lemma render_step_complete (parts : List String) (cur : Int) (pc : String) (item : ContentItem) :
    render_step ⟨parts, cur, false, pc⟩ item
      = { text_parts :=
            (if item.page_index.getD 0 ≠ cur then
               (if parts.isEmpty then parts else parts ++ [""])
                 ++ [page_marker (item.page_index.getD 0)]
             else parts)
            ++ [if item.type.getD "paragraph" == "sub_title" then "## " ++ item.content.getD ""
                else if item.type.getD "paragraph" == "table" then item.content.getD ""
                else item.content.getD ""],
          current_page := if item.page_index.getD 0 ≠ cur then item.page_index.getD 0 else cur,
          prev_is_incomplete := item.is_incomplete.getD false,
          prev_content := item.content.getD "" } := rfl

lemma render_fold_length (items : List ContentItem) :
    ∀ (parts : List String) (cur : Int) (pc : String), parts ≠ [] →
      (∀ item ∈ items, item.is_incomplete.getD false = false) →
      ((items.foldl render_step ⟨parts, cur, false, pc⟩).text_parts).length
        = parts.length + items.length + 2 * page_changes cur items := by
  induction items with
  | nil =>
    intro parts cur pc hne hflags
    simp [page_changes]
  | cons item rest ih =>
    intro parts cur pc hne hflags
    have hflag : item.is_incomplete.getD false = false :=
      hflags item (List.mem_cons_self item rest)
    obtain ⟨a, as, rfl⟩ : ∃ a as, parts = a :: as := by
      cases parts with
      | nil => exact absurd rfl hne
      | cons a as => exact ⟨a, as, rfl⟩
    rw [List.foldl_cons, render_step_complete, hflag]
    simp only [page_changes]
    by_cases hp : item.page_index.getD 0 ≠ cur
    · simp only [if_pos hp]
      rw [ih _ _ _ (by simp) (fun it hit => hflags it (List.mem_cons_of_mem item hit))]
      simp only [List.isEmpty_cons, List.length_append, List.length_cons]
      simp
      omega
    · simp only [if_neg hp]
      rw [ih _ _ _ (by simp) (fun it hit => hflags it (List.mem_cons_of_mem item hit))]
      simp only [List.length_append, List.length_cons]
      simp
      omega

/-! ### Claims -/

/-- C7: when no item carries a true `is_incomplete` flag no stitching occurs,
and each iteration emits exactly one content block, plus one page-marker
block whenever the item's (defaulted) page index differs from the previously
emitted marker (initially -1), plus one empty separator entry per marker
except a marker at the very first item; hence the number of blocks (content
blocks and markers, i.e. the entries of `text_parts` minus the separators)
is the item count plus the number of page changes: `text_parts.length` plus
the first-item correction equals `items.length + 2 * page_changes`, and the
rendered output is exactly these parts joined by blank lines. -/
theorem render_block_count (items : List ContentItem)
    (hflags : ∀ item ∈ items, item.is_incomplete.getD false = false) :
    (items.foldl render_step init_state).text_parts.length
        + (match items with
           | [] => 0
           | item :: _ => if item.page_index.getD 0 ≠ (-1 : Int) then 1 else 0)
      = items.length + 2 * page_changes (-1) items ∧
    json_to_text (some ⟨some items⟩)
      = String.intercalate "\n\n" (items.foldl render_step init_state).text_parts := by
  constructor
  · cases items with
    | nil => simp [init_state, page_changes]
    | cons item rest =>
      have hflag : item.is_incomplete.getD false = false :=
        hflags item (List.mem_cons_self item rest)
      rw [show init_state = (⟨[], -1, false, ""⟩ : RenderState) from rfl,
        List.foldl_cons, render_step_complete, hflag]
      simp only [page_changes]
      by_cases hp : item.page_index.getD 0 ≠ (-1 : Int)
      · simp only [if_pos hp]
        rw [render_fold_length rest _ _ _ (by simp)
          (fun it hit => hflags it (List.mem_cons_of_mem item hit))]
        simp
        omega
      · simp only [if_neg hp]
        rw [render_fold_length rest _ _ _ (by simp)
          (fun it hit => hflags it (List.mem_cons_of_mem item hit))]
        simp
        omega
  · cases items with
    | nil => rfl
    | cons item rest => rfl

theorem render_block_count_witness :
    (∀ item ∈ ([⟨some "paragraph", some 0, some "hi", some false⟩] : List ContentItem),
        item.is_incomplete.getD false = false) ∧
    (([⟨some "paragraph", some 0, some "hi", some false⟩] :
          List ContentItem).foldl render_step init_state).text_parts.length
        + (match ([⟨some "paragraph", some 0, some "hi", some false⟩] : List ContentItem) with
           | [] => 0
           | item :: _ => if item.page_index.getD 0 ≠ (-1 : Int) then 1 else 0)
      = ([⟨some "paragraph", some 0, some "hi", some false⟩] : List ContentItem).length
          + 2 * page_changes (-1) [⟨some "paragraph", some 0, some "hi", some false⟩] ∧
    json_to_text (some ⟨some [⟨some "paragraph", some 0, some "hi", some false⟩]⟩)
      = String.intercalate "\n\n"
          (([⟨some "paragraph", some 0, some "hi", some false⟩] :
              List ContentItem).foldl render_step init_state).text_parts :=
  ⟨by decide,
   (render_block_count [⟨some "paragraph", some 0, some "hi", some false⟩] (by decide)).1,
   (render_block_count [⟨some "paragraph", some 0, some "hi", some false⟩] (by decide)).2⟩

/-- C1: for a page count P and a chunk size C ≥ 1 the splitter's k-th chunk
starts at page k·C and covers the page range [k·C, min(k·C + C, P)) — so the
start pages are 0, C, 2C, ... and the last chunk may cover fewer than C
pages; every page p < P is covered by exactly one chunk's range (no page
missed, none covered twice); the ranges are ascending (each chunk ends no
later than the next begins); and every chunk's range is nonempty and stays
within [0, P). -/
theorem split_pdf_partition (P C : Nat) (hC : 1 ≤ C) :
    (∀ (k : Nat) (r : Nat × Nat), (split_pdf P C).get? k = some r
        → r = (k * C, min (k * C + C) P)) ∧
    (∀ p : Nat, p < P →
        (split_pdf P C).countP (fun r => decide (r.1 ≤ p ∧ p < r.2)) = 1) ∧
    (split_pdf P C).Chain' (fun a b => a.2 ≤ b.1) ∧
    (∀ r ∈ split_pdf P C, r.1 < r.2 ∧ r.2 ≤ P) := by
  refine ⟨?_, ?_, split_pdf_loop_chain P C 0, ?_⟩
  · intro k r hk
    rw [split_pdf, split_pdf_loop_get P C hC k 0] at hk
    by_cases hkP : 0 + k * C < P
    · rw [if_pos hkP] at hk
      cases hk
      simp
    · rw [if_neg hkP] at hk
      cases hk
  · intro p hp
    exact split_pdf_loop_countP P C p 0 hC (Nat.zero_le p) hp
  · intro r hr
    have hm := split_pdf_loop_mem P C 0 r hr
    constructor
    · rw [hm.2.2]
      exact lt_min (by omega) hm.2.1
    · rw [hm.2.2]
      exact min_le_right _ _

theorem split_pdf_partition_witness :
    1 ≤ 3 ∧
    ((∀ (k : Nat) (r : Nat × Nat), (split_pdf 7 3).get? k = some r
        → r = (k * 3, min (k * 3 + 3) 7)) ∧
     (∀ p : Nat, p < 7 →
        (split_pdf 7 3).countP (fun r => decide (r.1 ≤ p ∧ p < r.2)) = 1) ∧
     (split_pdf 7 3).Chain' (fun a b => a.2 ≤ b.1) ∧
     (∀ r ∈ split_pdf 7 3, r.1 < r.2 ∧ r.2 ≤ 7)) :=
  ⟨by decide, split_pdf_partition 7 3 (by decide)⟩

/-- C3: the merger's output data is the concatenation of all present chunks'
item lists, stable-sorted ascending by the page key: it is a permutation of
the concatenation, sorted by the (defaulted) page index, and for every key
value the sublist of items with that key is exactly the sublist of the
unsorted concatenation with that key, in the same order — so two items with
equal page index keep the relative order they had in the concatenated
input. -/
theorem merge_stable_sort (results : List (Option ExtractionResult)) :
    (merge_results results).data
        = some (List.insertionSort (fun a b => pageKey a ≤ pageKey b) (concat_data results)) ∧
    (List.insertionSort (fun a b => pageKey a ≤ pageKey b) (concat_data results)).Perm
        (concat_data results) ∧
    (List.insertionSort (fun a b => pageKey a ≤ pageKey b) (concat_data results)).Sorted
        (fun a b => pageKey a ≤ pageKey b) ∧
    (∀ v : Int,
      (List.insertionSort (fun a b => pageKey a ≤ pageKey b)
          (concat_data results)).filter (fun x => pageKey x == v)
        = (concat_data results).filter (fun x => pageKey x == v)) :=
  ⟨rfl, List.perm_insertionSort _ _, List.sorted_insertionSort _ _,
   fun v => filter_insertionSort v _⟩

/-- C5: rendering the two-item input whose page-0 paragraph is flagged
incomplete and whose page-1 paragraph completes it yields the single merged
block "The cat sat on the mat." as the last emitted part, placed under the
page-1 marker; the page-0 content block has been removed (the remaining
parts are the two page markers and the blank separator between them). -/
theorem stitch_scenario :
    ([⟨some "paragraph", some 0, some "The cat sat on the", some true⟩,
      ⟨some "paragraph", some 1, some "mat.", some false⟩].foldl
        render_step init_state).text_parts
      = ["[page_index: 0]", "", "[page_index: 1]", "The cat sat on the mat."] ∧
    json_to_text (some ⟨some [⟨some "paragraph", some 0, some "The cat sat on the", some true⟩,
        ⟨some "paragraph", some 1, some "mat.", some false⟩]⟩)
      = "[page_index: 0]\n\n\n\n[page_index: 1]\n\nThe cat sat on the mat." :=
  ⟨rfl, rfl⟩

/-- C8: a zero-page document yields no chunks, the merger run on an empty
result list yields the result with an empty data list, and rendering it (or
any input with no data items: a falsy input, a missing data key, or an empty
data list) yields the empty string. -/
theorem empty_input :
    (∀ chunk_size : Nat, split_pdf 0 chunk_size = []) ∧
    merge_results [] = ⟨some []⟩ ∧
    json_to_text (some (merge_results [])) = "" ∧
    json_to_text none = "" ∧
    json_to_text (some ⟨none⟩) = "" ∧
    json_to_text (some ⟨some []⟩) = "" := by
  refine ⟨?_, rfl, rfl, rfl, rfl, rfl⟩
  intro chunk_size
  rw [split_pdf, split_pdf_loop]
  simp

/-- C10: the merger and renderer are total on items with missing keys.  An
item without `page_index` has merge sort key 0 and renders exactly like one
whose `page_index` is 0 (so its page marker is `[page_index: 0]`); a missing
`type` renders like `paragraph`; a missing `content` renders like the empty
string; a missing `is_incomplete` renders like an explicit `false`; rebasing
leaves an item without a `page_index` key, and a result without a `data`
key, unchanged rather than failing. -/
theorem missing_fields_total :
    (∀ t c inc, pageKey ⟨t, none, c, inc⟩ = 0) ∧
    (∀ st t c inc, render_step st ⟨t, none, c, inc⟩ = render_step st ⟨t, some 0, c, inc⟩) ∧
    (∀ st p c inc, render_step st ⟨none, p, c, inc⟩ = render_step st ⟨some "paragraph", p, c, inc⟩) ∧
    (∀ st t p inc, render_step st ⟨t, p, none, inc⟩ = render_step st ⟨t, p, some "", inc⟩) ∧
    (∀ st t p c, render_step st ⟨t, p, c, none⟩ = render_step st ⟨t, p, c, some false⟩) ∧
    (∀ (B : Int) t c inc, rebase_item B ⟨t, none, c, inc⟩ = ⟨t, none, c, inc⟩) ∧
    (∀ B : Int, rebase_result B ⟨none⟩ = ⟨none⟩) ∧
    (∀ B : Int, process_chunk (Except.ok ⟨none⟩) B = some ⟨none⟩) :=
  ⟨fun _ _ _ => rfl, fun _ _ _ _ => rfl, fun _ _ _ _ => rfl, fun _ _ _ _ => rfl,
   fun _ _ _ _ => rfl, fun _ _ _ _ => rfl, fun _ => rfl, fun _ => rfl⟩

/-- C6 counterexample: in an iteration that stitches (previous item
incomplete, current item a paragraph with content "B" after a previous
content "A"), the carried-forward `prev_content` is the merged value "A B",
not the current item's own pre-merge content "B"; so the claim that both
`prev_is_incomplete` and `prev_content` are carried from the item's own
pre-merge values is false. -/
theorem prev_content_stitched_cex :
    (render_step ⟨["A"], 0, true, "A"⟩ ⟨some "paragraph", some 0, some "B", some false⟩).prev_content
      = "A B" ∧
    (render_step ⟨["A"], 0, true, "A"⟩ ⟨some "paragraph", some 0, some "B", some false⟩).prev_content
      ≠ "B" :=
  ⟨rfl, by decide⟩

/-- C6 amended: after each renderer iteration, `prev_is_incomplete` is the
current item's own (pre-merge) flag, but `prev_content` is the displayed
content: the stitched/merged value when a stitch occurred in that iteration,
and the item's own content otherwise. -/
theorem prev_state_update (st : RenderState) (item : ContentItem) :
    (render_step st item).prev_is_incomplete = item.is_incomplete.getD false ∧
    (render_step st item).prev_content
      = (if st.prev_is_incomplete && (item.type.getD "paragraph" == "paragraph")
         then st.prev_content ++ " " ++ item.content.getD ""
         else item.content.getD "") :=
  ⟨rfl, rfl⟩

/-- C2: rebasing in the chunk processor is additive and injective: for a
successful call with base page offset B, every item that carries a
`page_index` gets exactly `page_index + B`, the whole data list is rebased
itemwise, and for fixed B the map `p ↦ p + B` is injective. -/
theorem rebase_additive_injective (B : Int) :
    (∀ (item : ContentItem) (p : Int), item.page_index = some p →
        (rebase_item B item).page_index = some (p + B)) ∧
    (∀ (res : ExtractionResult) (items : List ContentItem), res.data = some items →
        process_chunk (Except.ok res) B = some ⟨some (items.map (rebase_item B))⟩) ∧
    (∀ p q : Int, p + B = q + B → p = q) := by
  refine ⟨?_, ?_, ?_⟩
  · intro item p hp
    obtain ⟨t, pi, c, inc⟩ := item
    cases hp
    rfl
  · intro res items h
    obtain ⟨d⟩ := res
    cases h
    rfl
  · intro p q h
    omega

theorem rebase_additive_injective_witness :
    (rebase_item 5 ⟨some "paragraph", some 2, some "x", some false⟩).page_index = some 7 ∧
    process_chunk (Except.ok ⟨some [⟨some "paragraph", some 2, some "x", some false⟩]⟩) 5
      = some ⟨some [⟨some "paragraph", some 7, some "x", some false⟩]⟩ :=
  ⟨(rebase_additive_injective 5).1 ⟨some "paragraph", some 2, some "x", some false⟩ 2 rfl,
   by
    rw [(rebase_additive_injective 5).2.1
        ⟨some [⟨some "paragraph", some 2, some "x", some false⟩]⟩
        [⟨some "paragraph", some 2, some "x", some false⟩] rfl]
    rfl⟩

/-- C4: a chunk whose model call fails (with any exception, including the
RetryError left after exhausted retries) is converted by the chunk processor
to an absent result `none` instead of an error, and the merger skips absent
results: with three chunks of which the second fails, the merged output is
exactly what merging the first and third chunks alone gives (their items,
stable-sorted by page index), and no failure value reaches the fan-in. -/
theorem failure_isolation (f : CallFailure) (b1 b2 b3 : Int) (r1 r3 : ExtractionResult) :
    process_chunk (Except.error f) b2 = none ∧
    merge_results [process_chunk (Except.ok r1) b1, process_chunk (Except.error f) b2,
        process_chunk (Except.ok r3) b3]
      = merge_results [process_chunk (Except.ok r1) b1, process_chunk (Except.ok r3) b3] := by
  refine ⟨rfl, ?_⟩
  have h1 : process_chunk (Except.ok r1) b1 = some (rebase_result b1 r1) := rfl
  have h3 : process_chunk (Except.ok r3) b3 = some (rebase_result b3 r3) := rfl
  rw [merge_results, merge_results, h1, h3]
  have : process_chunk (Except.error f) b2 = none := rfl
  rw [this]
  rw [concat_data_cons_some, concat_data_cons_none, concat_data_cons_some,
    concat_data_cons_some, concat_data_cons_some]

/-- C9 counterexample: with every attempt failing with message "boom", the
backoff waits actually performed are 4, 4, 8, 16 seconds — the second wait
is again 4 (the 4-second floor of the wait formula absorbs the first
doubling), not the double of the first — so the waits are not "starting at 4
and doubling each retry" (which would be 4, 8, 16, 32); and the failure
propagated after the 5 attempts is a tenacity RetryError wrapping the final
exception, not the final exception itself. -/
theorem retry_policy_cex :
    (call_gemini_api fun _ => Except.error "boom")
        = (Except.error (CallFailure.retryError "boom"), [4, 4, 8, 16]) ∧
    (call_gemini_api fun _ => Except.error "boom").2 ≠ [4, 8, 16, 32] ∧
    (call_gemini_api fun _ => Except.error "boom").1
        ≠ Except.error (CallFailure.exc "boom") := by
  have h := retry_all_fail (fun _ => Except.error "boom") "boom" "boom" "boom" "boom" "boom"
    rfl rfl rfl rfl rfl
  refine ⟨h, by rw [h]; decide, by rw [h]; simp⟩

/-- C9 amended: the model client retries on any exception for at most 5
attempts in total (the outcome depends only on attempts 1 through 5); the
backoff wait after the n-th failed attempt is max(4, min(2·2^(n-1), 60))
seconds, giving the sequence 4, 4, 8, 16: it starts at 4 seconds, the floor
absorbs the first doubling so the second wait is again 4, it doubles from
the second wait on, and it is capped at 60 seconds; if all 5 attempts fail,
a tenacity RetryError wrapping the final attempt's exception is propagated
to the caller (reraise is left at its default False). -/
theorem retry_policy (outcomes : Nat → Except String ExtractionResult) (e5 : String)
    (hfail : ∀ n, 1 ≤ n → n ≤ 4 → ∃ e, outcomes n = Except.error e)
    (h5 : outcomes 5 = Except.error e5) :
    call_gemini_api outcomes
        = (Except.error (CallFailure.retryError e5),
           [retry_wait 1, retry_wait 2, retry_wait 3, retry_wait 4]) ∧
    [retry_wait 1, retry_wait 2, retry_wait 3, retry_wait 4] = [4, 4, 8, 16] ∧
    (∀ n : Nat, 4 ≤ retry_wait n ∧ retry_wait n ≤ 60) ∧
    (∀ n : Nat, 2 ≤ n → retry_wait (n + 1) = min (2 * retry_wait n) 60) ∧
    (∀ o o' : Nat → Except String ExtractionResult,
        (∀ m, 1 ≤ m → m ≤ 5 → o m = o' m) → call_gemini_api o = call_gemini_api o') := by
  obtain ⟨e1, h1⟩ := hfail 1 (by omega) (by omega)
  obtain ⟨e2, h2⟩ := hfail 2 (by omega) (by omega)
  obtain ⟨e3, h3⟩ := hfail 3 (by omega) (by omega)
  obtain ⟨e4, h4⟩ := hfail 4 (by omega) (by omega)
  have hw : ([retry_wait 1, retry_wait 2, retry_wait 3, retry_wait 4] : List Nat)
      = [4, 4, 8, 16] := by decide
  refine ⟨?_, hw, ?_, ?_, ?_⟩
  · rw [hw]
    exact retry_all_fail outcomes e1 e2 e3 e4 e5 h1 h2 h3 h4 h5
  · intro n
    rw [retry_wait]
    have : min (2 * 2 ^ (n - 1)) 60 ≤ 60 := min_le_right _ _
    omega
  · intro n hn
    have hpow : (2 : Nat) ^ n = 2 ^ (n - 1) * 2 := by
      rw [← pow_succ]
      congr 1
      omega
    have hge : 2 ≤ (2 : Nat) ^ (n - 1) := by
      calc (2 : Nat) = 2 ^ 1 := (pow_one 2).symm
        _ ≤ 2 ^ (n - 1) := Nat.pow_le_pow_right (by omega) (by omega)
    rw [retry_wait, retry_wait]
    have h0 : n + 1 - 1 = n := by omega
    rw [h0, hpow]
    omega
  · intro o o' hag
    exact retry_loop_congr o o' 4 1 (by omega) (fun m hm hm5 => hag m hm hm5)

theorem retry_policy_witness :
    (∀ n, 1 ≤ n → n ≤ 4 →
        ∃ e, (fun _ : Nat => (Except.error "boom" : Except String ExtractionResult)) n
          = Except.error e) ∧
    ((fun _ : Nat => (Except.error "boom" : Except String ExtractionResult)) 5
        = Except.error "boom") ∧
    (call_gemini_api (fun _ : Nat => (Except.error "boom" : Except String ExtractionResult))
        = (Except.error (CallFailure.retryError "boom"),
           [retry_wait 1, retry_wait 2, retry_wait 3, retry_wait 4]) ∧
     [retry_wait 1, retry_wait 2, retry_wait 3, retry_wait 4] = [4, 4, 8, 16] ∧
     (∀ n : Nat, 4 ≤ retry_wait n ∧ retry_wait n ≤ 60) ∧
     (∀ n : Nat, 2 ≤ n → retry_wait (n + 1) = min (2 * retry_wait n) 60) ∧
     (∀ o o' : Nat → Except String ExtractionResult,
        (∀ m, 1 ≤ m → m ≤ 5 → o m = o' m) → call_gemini_api o = call_gemini_api o')) :=
  ⟨fun _ _ _ => ⟨"boom", rfl⟩, rfl,
   retry_policy (fun _ => Except.error "boom") "boom" (fun _ _ _ => ⟨"boom", rfl⟩) rfl⟩

end SimplePdf
